import Mathlib

/-!
Verification of the Campaign Batch-Transfer Execution Engine of the
batch-airdrop-desktop application.

The development shallowly embeds the relevant TypeScript code:

* SolanaService.batchTransfer / SolanaService.executeBatchTransfer
  (src/main/services/SolanaService.ts): splitting a recipient list into
  chain-safe batches and building the per-batch instruction list.
* CampaignExecutor.executeCampaign (same file): the campaign state machine,
  per-campaign execution lock, pause flag, batch loop, failure isolation and
  final status computation.  Asynchronous effects (RPC submission,
  confirmation) are abstracted into an outcome oracle indexed by batch
  number; the pause flag observed at each batch boundary is likewise an
  oracle, so a run is a pure function of the database state and the oracles.
* TransactionUtils.calculateDynamicCheckInterval
  (src/main/utils/transaction-utils.ts): the adaptive polling interval.
  JavaScript number arithmetic is modelled over the rationals with
  Math.round as floor (x + 1/2).
* CampaignEstimator.calculateOptimalBatchSize
  (src/main/services/CampaignEstimator.ts): the batch-size recommendation.
-/

/-- Status of a recipient row (spec data model; the executor itself only ever
writes COMPLETED and FAILED, and loads rows whose status is PENDING). -/
inductive RecipientStatus
  | PENDING
  | PROCESSING
  | COMPLETED
  | FAILED
  deriving DecidableEq, Repr

/-- Campaign status as constrained by the campaigns table schema. -/
inductive CampaignStatus
  | CREATED
  | READY
  | SENDING
  | PAUSED
  | COMPLETED
  | FAILED
  deriving DecidableEq, Repr

/-- Number of batches the loop "for (start = 0; start < len; start += bs)"
produces, i.e. ceil (len / bs) for positive bs. -/
def numBatches (len bs : Nat) : Nat :=
  (len + bs - 1) / bs

/-- The slice recipients.slice (i * bs, min ((i+1) * bs) len) taken by batch
number i, both in SolanaService.batchTransfer and in
CampaignExecutor.executeCampaign. -/
def sliceBatch {α : Type} (l : List α) (bs i : Nat) : List α :=
  (l.drop (i * bs)).take bs

/-- Per-token batch size chosen by SolanaService.batchTransfer:
15 recipients per transaction for native SOL, 8 for SPL tokens. -/
def solanaBatchSize (isNativeSOL : Bool) : Nat :=
  if isNativeSOL then 15 else 8

/-- The batches emitted by the loop in SolanaService.batchTransfer. -/
def solanaBatches (recipients : List String) (isNativeSOL : Bool) : List (List String) :=
  (List.range (numBatches recipients.length (solanaBatchSize isNativeSOL))).map
    (fun i => sliceBatch recipients (solanaBatchSize isNativeSOL) i)

/-- Number of instructions SolanaService.executeBatchTransfer adds to the
transaction for one recipient.  prepOk models whether preparing the
instruction succeeded (invalid addresses throw and add nothing); needsATA
models whether connection.getAccountInfo found no associated token account,
in which case an extra createAssociatedTokenAccountInstruction is added
before the transfer instruction. -/
def instructionsForRecipient (isNativeSOL : Bool) (prepOk needsATA : String → Bool)
    (r : String) : Nat :=
  if prepOk r then
    if isNativeSOL then 1
    else if needsATA r then 2 else 1
  else 0

/-- Total instruction count of the transaction built for one batch by
SolanaService.executeBatchTransfer. -/
def batchInstructionCount (isNativeSOL : Bool) (prepOk needsATA : String → Bool)
    (batch : List String) : Nat :=
  (batch.map (instructionsForRecipient isNativeSOL prepOk needsATA)).sum

/-- Math.round for the rational model of JavaScript numbers. -/
def jsRound (q : ℚ) : ℤ :=
  Int.floor (q + 1 / 2)

/-- Extra factor applied by TransactionUtils.calculateDynamicCheckInterval when
the network-status heuristic reports congestion (intervalMultiplier *= 1.2). -/
def congestionFactor (isCongested : Bool) : ℚ :=
  if isCongested then 6 / 5 else 1

/-- TransactionUtils.calculateDynamicCheckInterval: progress through the
max wait selects a multiplier (2 beyond 80 percent, 1.5 beyond 50 percent,
1 otherwise), congestion multiplies by 1.2, and the result is rounded. -/
def calculateDynamicCheckInterval (elapsed maxWaitTime baseInterval : ℚ)
    (isCongested : Bool) : ℤ :=
  jsRound (baseInterval *
    ((if elapsed / maxWaitTime > 4 / 5 then 2
      else if elapsed / maxWaitTime > 1 / 2 then 3 / 2
      else (1 : ℚ)) * congestionFactor isCongested))

/-- CampaignEstimator.calculateOptimalBatchSize.  The second argument
(gasPerTransfer) is accepted and ignored, exactly as in the source; no
chain-dependent input reaches this computation. -/
def calculateOptimalBatchSize (recipientCount gasPerTransfer : Nat) : Nat :=
  if recipientCount < 50 then min 25 recipientCount
  else if recipientCount < 500 then 50
  else if recipientCount < 2000 then 100
  else 200

/-- Recommendation component of CampaignEstimator.estimate: gasPerTransfer is
21000 for the native token and 65000 for ERC20, and the chain field of the
request never reaches calculateOptimalBatchSize. -/
def estimateOptimalBatchSize (chain : String) (isNativeToken : Bool)
    (recipientCount : Nat) : Nat :=
  calculateOptimalBatchSize recipientCount (if isNativeToken then 21000 else 65000)

theorem sliceBatch_length_le {α : Type} (l : List α) (bs i : Nat) :
    (sliceBatch l bs i).length ≤ bs := by
  simp [sliceBatch]

theorem instructionsForRecipient_le (isNativeSOL : Bool) (prepOk needsATA : String → Bool)
    (r : String) :
    instructionsForRecipient isNativeSOL prepOk needsATA r ≤
      (if isNativeSOL then 1 else 2) := by
  unfold instructionsForRecipient
  split_ifs <;> simp_all

theorem batchInstructionCount_le (isNativeSOL : Bool) (prepOk needsATA : String → Bool)
    (batch : List String) :
    batchInstructionCount isNativeSOL prepOk needsATA batch ≤
      batch.length * (if isNativeSOL then 1 else 2) := by
  unfold batchInstructionCount
  have h := List.sum_le_card_nsmul
    (batch.map (instructionsForRecipient isNativeSOL prepOk needsATA))
    (if isNativeSOL then 1 else 2) ?_
  · simpa [smul_eq_mul] using h
  · intro x hx
    rcases List.mem_map.mp hx with ⟨r, _, rfl⟩
    exact instructionsForRecipient_le isNativeSOL prepOk needsATA r

/-- C1 (amended).  Every batch emitted by the Solana batch planner contains at
most 15 recipients for native-SOL transfers and at most 8 for SPL-token
transfers, hence at most 15 instructions per native batch; an SPL batch
however may carry up to 16 instructions, because each of its at most 8
recipients can contribute an associated-token-account-creation instruction
in addition to the transfer instruction. -/
theorem solana_batch_within_amended_limits (recipients : List String) (isNativeSOL : Bool)
    (prepOk needsATA : String → Bool) (b : List String)
    (hb : b ∈ solanaBatches recipients isNativeSOL) :
    b.length ≤ solanaBatchSize isNativeSOL ∧
    batchInstructionCount isNativeSOL prepOk needsATA b ≤
      (if isNativeSOL then 15 else 16) := by
  rcases List.mem_map.mp hb with ⟨i, _, rfl⟩
  refine ⟨sliceBatch_length_le _ _ _, ?_⟩
  have h1 := batchInstructionCount_le isNativeSOL prepOk needsATA
    (sliceBatch recipients (solanaBatchSize isNativeSOL) i)
  have h2 := sliceBatch_length_le recipients (solanaBatchSize isNativeSOL) i
  cases isNativeSOL <;> simp only [solanaBatchSize] at h1 h2 ⊢ <;> norm_num at h1 h2 ⊢ <;> omega

/-- Witness for C1 (amended) at a concrete input: a single SPL batch of three
recipients, all needing an associated token account. -/
theorem solana_batch_within_amended_limits_witness :
    (["r1", "r2", "r3"].length ≤ solanaBatchSize false ∧
      batchInstructionCount false (fun _ => true) (fun _ => true) ["r1", "r2", "r3"] ≤
        (if false then 15 else 16)) :=
  solana_batch_within_amended_limits ["r1", "r2", "r3"] false
    (fun _ => true) (fun _ => true) ["r1", "r2", "r3"] (by decide)

/-- C1 counterexample to the claim as stated: an SPL transfer to 8 recipients
that all lack an associated token account forms a single batch whose
transaction carries 16 instructions, exceeding the claimed ceiling of 8
instructions for SPL-token transfers when the account-creation instructions
are counted. -/
theorem solana_spl_batch_exceeds_eight_instructions :
    solanaBatches ["r1", "r2", "r3", "r4", "r5", "r6", "r7", "r8"] false =
      [["r1", "r2", "r3", "r4", "r5", "r6", "r7", "r8"]] ∧
    batchInstructionCount false (fun _ => true) (fun _ => true)
      ["r1", "r2", "r3", "r4", "r5", "r6", "r7", "r8"] = 16 ∧
    ¬ (16 ≤ 8) := by
  refine ⟨by decide, by decide, by decide⟩

/-- C7 (amended).  The polling interval follows the claimed schedule relative
to the adaptive max-wait (base interval up to 50 percent elapsed, base times
1.5 beyond 50 percent, base times 2 beyond 80 percent), except that the code
additionally multiplies the interval by 1.2 whenever the network-status
heuristic reports congestion, and rounds the product to the nearest integer
number of milliseconds. -/
theorem dynamic_check_interval_schedule (e mw b : ℚ) (c : Bool) :
    (e / mw ≤ 1 / 2 →
      calculateDynamicCheckInterval e mw b c = jsRound (b * congestionFactor c)) ∧
    (1 / 2 < e / mw → e / mw ≤ 4 / 5 →
      calculateDynamicCheckInterval e mw b c = jsRound (b * (3 / 2 * congestionFactor c))) ∧
    (4 / 5 < e / mw →
      calculateDynamicCheckInterval e mw b c = jsRound (b * (2 * congestionFactor c))) := by
  unfold calculateDynamicCheckInterval
  refine ⟨?_, ?_, ?_⟩
  · intro h
    rw [if_neg (by push_neg; linarith), if_neg (by push_neg; exact h), one_mul]
  · intro h1 h2
    rw [if_neg (by push_neg; exact h2), if_pos h1]
  · intro h
    rw [if_pos h]

/-- Witness for C7 (amended): the three regimes of the schedule at concrete
elapsed times 0, 18000 and 27000 out of a 30000 ms max-wait. -/
theorem dynamic_check_interval_schedule_witness :
    calculateDynamicCheckInterval 0 30000 1000 false = jsRound (1000 * congestionFactor false) ∧
    calculateDynamicCheckInterval 18000 30000 1000 false =
      jsRound (1000 * (3 / 2 * congestionFactor false)) ∧
    calculateDynamicCheckInterval 27000 30000 1000 false =
      jsRound (1000 * (2 * congestionFactor false)) :=
  ⟨(dynamic_check_interval_schedule 0 30000 1000 false).1 (by norm_num),
   (dynamic_check_interval_schedule 18000 30000 1000 false).2.1 (by norm_num) (by norm_num),
   (dynamic_check_interval_schedule 27000 30000 1000 false).2.2 (by norm_num)⟩

/-- C7 counterexample to the claim as stated: during a congested-network wait
(the hour-of-day heuristic reports congestion), at 0 percent elapsed the
interval is 1.2 times the 1000 ms base interval, not the base interval
itself. -/
theorem dynamic_check_interval_congestion_counterexample :
    calculateDynamicCheckInterval 0 30000 1000 true = 1200 ∧ ((1200 : ℤ) ≠ 1000) := by
  refine ⟨?_, by decide⟩
  rw [calculateDynamicCheckInterval, if_neg (by norm_num), if_neg (by norm_num),
    congestionFactor, if_pos rfl, jsRound]
  norm_num

/-- C8 (amended).  The batch-size recommendation depends only on the recipient
count: it returns min 25 count (not always 25) for campaigns with fewer than
50 recipients, is monotone in the recipient count, reaches a fixed ceiling of
200 for campaigns with at least 2000 recipients, and is entirely independent
of the chain and of the per-transfer gas figure, so BSC and L2 chains receive
exactly the same recommendation as Ethereum mainnet. -/
theorem optimal_batch_size_amended (n m g g2 : Nat) (chain1 chain2 : String) (native : Bool) :
    (n < 50 → calculateOptimalBatchSize n g = min 25 n) ∧
    (2000 ≤ n → calculateOptimalBatchSize n g = 200) ∧
    calculateOptimalBatchSize n g ≤ 200 ∧
    (n ≤ m → calculateOptimalBatchSize n g ≤ calculateOptimalBatchSize m g) ∧
    calculateOptimalBatchSize n g = calculateOptimalBatchSize n g2 ∧
    estimateOptimalBatchSize chain1 native n = estimateOptimalBatchSize chain2 native n := by
  refine ⟨?_, ?_, ?_, ?_, rfl, rfl⟩
  · intro h
    simp [calculateOptimalBatchSize, h]
  · intro h
    unfold calculateOptimalBatchSize
    split_ifs <;> omega
  · unfold calculateOptimalBatchSize
    split_ifs <;> omega
  · intro h
    unfold calculateOptimalBatchSize
    split_ifs <;> omega

/-- Witness for C8 (amended) at concrete recipient counts 10, 100 and 5000. -/
theorem optimal_batch_size_amended_witness :
    calculateOptimalBatchSize 10 21000 = min 25 10 ∧
    calculateOptimalBatchSize 5000 21000 = 200 ∧
    calculateOptimalBatchSize 100 21000 ≤ calculateOptimalBatchSize 600 21000 :=
  ⟨(optimal_batch_size_amended 10 600 21000 21000 "1" "56" true).1 (by decide),
   (optimal_batch_size_amended 5000 600 21000 21000 "1" "56" true).2.1 (by decide),
   (optimal_batch_size_amended 100 600 21000 21000 "1" "56" true).2.2.2.1 (by decide)⟩

/-- C8 counterexample to the claim as stated: a campaign with 10 recipients is
recommended a batch size of 10, not 25, and for the same recipient count the
recommendation computed for BSC (chain id 56) is identical to the one for
Ethereum mainnet (chain id 1), never larger. -/
theorem optimal_batch_size_counterexample :
    calculateOptimalBatchSize 10 65000 = 10 ∧ ((10 : Nat) ≠ 25) ∧
    estimateOptimalBatchSize "56" false 10000 = estimateOptimalBatchSize "1" false 10000 := by
  refine ⟨by decide, by decide, by decide⟩

/-- A row of the recipients table as seen by CampaignExecutor: address and
amount (the (campaignId, address) pair is the unique key), mutable status and
tx hash column.  updateRecipientStatus writes the fourth SQL parameter into
tx_hash, which on failure paths is the error message. -/
structure RecipientRow where
  address : String
  amount : String
  status : RecipientStatus
  txHash : Option String
  deriving DecidableEq, Repr

/-- A row of the transactions table recorded by recordTransaction and
updated by updateTransactionStatus. -/
structure TxRecord where
  txHash : String
  txType : String
  status : String
  deriving DecidableEq, Repr

/-- The durable state of one campaign: the campaigns row status together with
its recipients and transactions rows. -/
structure Db where
  campaignStatus : CampaignStatus
  recipients : List RecipientRow
  transactions : List TxRecord
  deriving DecidableEq, Repr

/-- Outcome of one batch of CampaignExecutor.executeBatch (after the retry
wrapper).  confirmed: the transfer was submitted and confirmed, so the batch
recipients are marked COMPLETED with the tx hash.  confirmFailed: the
transfer was submitted (and recorded) but confirmation failed or timed out,
so executeBatch marks the batch recipients FAILED with the error message and
returns without throwing.  threw: submission failed permanently (retries
exhausted) and the error reached the executor loop, whose catch block marks
the batch recipients FAILED. -/
inductive BatchOutcome
  | confirmed (txHash : String)
  | confirmFailed (txHash message : String)
  | threw (message : String)
  deriving DecidableEq, Repr

/-- Recipient status written for a batch with the given outcome. -/
def outcomeStatus : BatchOutcome → RecipientStatus
  | .confirmed _ => .COMPLETED
  | .confirmFailed _ _ => .FAILED
  | .threw _ => .FAILED

/-- Value written into the tx_hash column of the batch recipients: the tx
hash on success, the error message on the failure paths. -/
def outcomeHash : BatchOutcome → Option String
  | .confirmed h => some h
  | .confirmFailed _ msg => some msg
  | .threw msg => some msg

/-- Transactions-table rows produced for the batch: a BATCH_SEND record is
created after successful submission and its status updated after the
confirmation wait; nothing is recorded when submission itself threw. -/
def outcomeTxRecords : BatchOutcome → List TxRecord
  | .confirmed h => [⟨h, "BATCH_SEND", "CONFIRMED"⟩]
  | .confirmFailed h _ => [⟨h, "BATCH_SEND", "FAILED"⟩]
  | .threw _ => []

/-- Effect of the per-recipient loop of updateRecipientStatus calls: every
recipients row whose address is among the batch addresses gets the new
status and tx_hash value (the SQL statement updates by campaign_id and
address). -/
def updateRecipients (rows : List RecipientRow) (addrs : List String)
    (st : RecipientStatus) (h : Option String) : List RecipientRow :=
  rows.map (fun r => if r.address ∈ addrs then { r with status := st, txHash := h } else r)

/-- State change performed for one batch with the given addresses and
outcome. -/
def applyOutcome (db : Db) (addrs : List String) (o : BatchOutcome) : Db :=
  { db with
    recipients := updateRecipients db.recipients addrs (outcomeStatus o) (outcomeHash o)
    transactions := db.transactions ++ outcomeTxRecords o }

/-- Campaign status update (updateCampaignStatus). -/
def setCampaignStatus (db : Db) (s : CampaignStatus) : Db :=
  { db with campaignStatus := s }

/-- Addresses of batch number i drawn from the loaded pending list. -/
def batchAddrs (pending : List RecipientRow) (bs i : Nat) : List String :=
  (sliceBatch pending bs i).map (fun r => r.address)

/-- The batch loop of CampaignExecutor.executeCampaign: before each batch the
pause flag is consulted (pauseAt i is the value pauseMap.get would return at
that boundary); on pause the campaign is set to PAUSED and the loop breaks;
otherwise the batch slice is processed with its outcome and the loop
continues with the next index.  The fuel argument counts the remaining
batches, so the loop runs batch indices i, i+1, ..., i+fuel-1. -/
def runBatches (pauseAt : Nat → Bool) (outcome : Nat → BatchOutcome)
    (pending : List RecipientRow) (bs : Nat) : Nat → Nat → Db → Db
  | 0, _, db => db
  | fuel + 1, i, db =>
    if pauseAt i then
      setCampaignStatus db .PAUSED
    else
      runBatches pauseAt outcome pending bs fuel (i + 1)
        (applyOutcome db (batchAddrs pending bs i) (outcome i))

/-- Number of recipients rows of the campaign with the given status. -/
def countStatus (db : Db) (s : RecipientStatus) : Nat :=
  (db.recipients.filter (fun r => decide (r.status = s))).length

/-- Recipients rows carrying a given address (with the unique key of the
table there is at most one). -/
def rowsAt (db : Db) (a : String) : List RecipientRow :=
  db.recipients.filter (fun r => decide (r.address = a))

/-- The getPendingRecipients query: the recipients rows whose status is
PENDING, in table order. -/
def pendingOf (db : Db) : List RecipientRow :=
  db.recipients.filter (fun r => decide (r.status = .PENDING))

/-- Final status update of executeCampaign: after the batch loop the pending
count is re-queried, and whenever it is zero the campaign becomes COMPLETED
(in both the zero-failure branch and the some-failures branch of the
source). -/
def finishRun (db : Db) : Db :=
  if countStatus db .PENDING = 0 then setCampaignStatus db .COMPLETED else db

/-- Errors thrown by CampaignExecutor.executeCampaign before or instead of
processing batches. -/
inductive RunError
  | alreadyExecuting
  | invalidState
  deriving DecidableEq, Repr

/-- Result of one executeCampaign invocation: the database afterwards, the
error thrown (if any), and whether the per-campaign execution lock is still
held for this campaign after the invocation returns. -/
structure RunResult where
  db : Db
  error : Option RunError
  lockHeld : Bool
  deriving DecidableEq, Repr

/-- CampaignExecutor.executeCampaign for one campaign, as a pure function.
lockHeld says whether another invocation currently holds the executionMap
entry for this campaignId.  The steps mirror the source: the lock check
throws before any state is touched (and without clearing the other
invocation's lock); a campaign whose status is neither READY nor PAUSED
throws, and the catch block then overwrites the campaign status with FAILED;
with no pending recipients the campaign is set COMPLETED immediately;
otherwise the status is set to SENDING, ceil (pending / batchSize) batches
are processed by runBatches, and finally the campaign is set COMPLETED
whenever no recipient is left PENDING.  The finally block always releases
the lock taken by this invocation. -/
def executeCampaignRun (lockHeld : Bool) (db : Db) (batchSize : Nat)
    (pauseAt : Nat → Bool) (outcome : Nat → BatchOutcome) : RunResult :=
  if lockHeld then
    ⟨db, some .alreadyExecuting, true⟩
  else if db.campaignStatus ≠ .READY ∧ db.campaignStatus ≠ .PAUSED then
    ⟨setCampaignStatus db .FAILED, some .invalidState, false⟩
  else if pendingOf db = [] then
    ⟨setCampaignStatus db .COMPLETED, none, false⟩
  else
    ⟨finishRun (runBatches pauseAt outcome (pendingOf db) batchSize
        (numBatches (pendingOf db).length batchSize) 0 (setCampaignStatus db .SENDING)),
      none, false⟩

theorem executeCampaignRun_main (db : Db) (bs : Nat) (pauseAt : Nat → Bool)
    (outcome : Nat → BatchOutcome)
    (hst : db.campaignStatus = .READY ∨ db.campaignStatus = .PAUSED)
    (hne : pendingOf db ≠ []) :
    executeCampaignRun false db bs pauseAt outcome =
      ⟨finishRun (runBatches pauseAt outcome (pendingOf db) bs
          (numBatches (pendingOf db).length bs) 0 (setCampaignStatus db .SENDING)),
        none, false⟩ := by
  unfold executeCampaignRun
  rw [if_neg (by simp), if_neg (by tauto), if_neg hne]

/-- C4.  A Run invocation on a campaign whose execution lock is already held
by another in-flight invocation fails immediately with the
already-executing error, changes no campaign, recipient or transaction
state, and leaves the lock of the first invocation in place. -/
theorem run_already_executing_no_side_effects (db : Db) (bs : Nat)
    (pauseAt : Nat → Bool) (outcome : Nat → BatchOutcome) :
    (executeCampaignRun true db bs pauseAt outcome).error = some .alreadyExecuting ∧
    (executeCampaignRun true db bs pauseAt outcome).db = db ∧
    (executeCampaignRun true db bs pauseAt outcome).lockHeld = true :=
  ⟨rfl, rfl, rfl⟩

/-- C9.  Calling Run on an existing campaign whose status is neither READY
nor PAUSED throws the invalid-state error, and the catch block of
executeCampaign then overwrites the stored campaign status with FAILED; the
recipients and transactions tables are untouched, but the precondition
failure is not side-effect-free on the campaign record. -/
theorem run_invalid_state_overwrites_status (db : Db) (bs : Nat)
    (pauseAt : Nat → Bool) (outcome : Nat → BatchOutcome)
    (h1 : db.campaignStatus ≠ .READY) (h2 : db.campaignStatus ≠ .PAUSED) :
    (executeCampaignRun false db bs pauseAt outcome).error = some .invalidState ∧
    (executeCampaignRun false db bs pauseAt outcome).db.campaignStatus = .FAILED ∧
    (executeCampaignRun false db bs pauseAt outcome).db.recipients = db.recipients ∧
    (executeCampaignRun false db bs pauseAt outcome).db.transactions = db.transactions := by
  unfold executeCampaignRun
  rw [if_neg (by simp), if_pos ⟨h1, h2⟩]
  exact ⟨rfl, rfl, rfl, rfl⟩

/-- Witness for C9: running a COMPLETED campaign leaves it FAILED. -/
theorem run_invalid_state_overwrites_status_witness :
    (executeCampaignRun false ⟨.COMPLETED, [⟨"a", "1", .COMPLETED, none⟩], []⟩ 100
        (fun _ => false) (fun _ => .threw "e")).error = some .invalidState ∧
    (executeCampaignRun false ⟨.COMPLETED, [⟨"a", "1", .COMPLETED, none⟩], []⟩ 100
        (fun _ => false) (fun _ => .threw "e")).db.campaignStatus = .FAILED ∧
    (executeCampaignRun false ⟨.COMPLETED, [⟨"a", "1", .COMPLETED, none⟩], []⟩ 100
        (fun _ => false) (fun _ => .threw "e")).db.recipients =
      (⟨.COMPLETED, [⟨"a", "1", .COMPLETED, none⟩], []⟩ : Db).recipients ∧
    (executeCampaignRun false ⟨.COMPLETED, [⟨"a", "1", .COMPLETED, none⟩], []⟩ 100
        (fun _ => false) (fun _ => .threw "e")).db.transactions =
      (⟨.COMPLETED, [⟨"a", "1", .COMPLETED, none⟩], []⟩ : Db).transactions :=
  run_invalid_state_overwrites_status ⟨.COMPLETED, [⟨"a", "1", .COMPLETED, none⟩], []⟩ 100
    (fun _ => false) (fun _ => .threw "e") (by decide) (by decide)

/-- C2.  When a run that was allowed to start processes all its batches (the
pause flag never fires) and at the end no recipient is left PENDING, the
campaign status is set to COMPLETED; the source sets COMPLETED in both the
zero-failures branch and the some-failures branch, so FAILED recipients are
recorded but do not prevent the COMPLETED terminal state. -/
theorem run_completed_despite_failures (db : Db) (bs : Nat)
    (pauseAt : Nat → Bool) (outcome : Nat → BatchOutcome)
    (hst : db.campaignStatus = .READY ∨ db.campaignStatus = .PAUSED)
    (hpause : ∀ i, pauseAt i = false)
    (hdone : countStatus (executeCampaignRun false db bs pauseAt outcome).db .PENDING = 0) :
    (executeCampaignRun false db bs pauseAt outcome).db.campaignStatus = .COMPLETED := by
  by_cases hne : pendingOf db = []
  · unfold executeCampaignRun
    rw [if_neg (by simp), if_neg (by tauto), if_pos hne]
    rfl
  · rw [executeCampaignRun_main db bs pauseAt outcome hst hne] at hdone ⊢
    simp only at hdone ⊢
    unfold finishRun at hdone ⊢
    by_cases h0 : countStatus (runBatches pauseAt outcome (pendingOf db) bs
        (numBatches (pendingOf db).length bs) 0 (setCampaignStatus db .SENDING)) .PENDING = 0
    · rw [if_pos h0]
      rfl
    · rw [if_neg h0] at hdone
      exact absurd hdone h0

theorem mem_rowsAt {db : Db} {a : String} {row : RecipientRow} :
    row ∈ rowsAt db a ↔ row ∈ db.recipients ∧ row.address = a := by
  simp [rowsAt, List.mem_filter]

theorem updateRecipients_filter_address (rows : List RecipientRow) (addrs : List String)
    (st : RecipientStatus) (h : Option String) (a : String) :
    (updateRecipients rows addrs st h).filter (fun r => decide (r.address = a)) =
      if a ∈ addrs then
        (rows.filter (fun r => decide (r.address = a))).map
          (fun r => { r with status := st, txHash := h })
      else rows.filter (fun r => decide (r.address = a)) := by
  induction rows with
  | nil => by_cases hmem : a ∈ addrs <;> simp [updateRecipients, hmem]
  | cons r rs ih =>
    by_cases hmem : a ∈ addrs <;> by_cases hra : r.address = a <;>
      by_cases hrm : r.address ∈ addrs <;>
      simp_all [updateRecipients, List.filter_cons]

theorem rowsAt_applyOutcome (db : Db) (addrs : List String) (o : BatchOutcome) (a : String) :
    rowsAt (applyOutcome db addrs o) a =
      if a ∈ addrs then
        (rowsAt db a).map (fun r => { r with status := outcomeStatus o, txHash := outcomeHash o })
      else rowsAt db a :=
  updateRecipients_filter_address db.recipients addrs (outcomeStatus o) (outcomeHash o) a

theorem rowsAt_setCampaignStatus (db : Db) (s : CampaignStatus) (a : String) :
    rowsAt (setCampaignStatus db s) a = rowsAt db a :=
  rfl

theorem rowsAt_finishRun (db : Db) (a : String) :
    rowsAt (finishRun db) a = rowsAt db a := by
  unfold finishRun
  split <;> rfl

theorem rowsAt_runBatches_not_mem (pauseAt : Nat → Bool) (outcome : Nat → BatchOutcome)
    (pending : List RecipientRow) (bs : Nat) (a : String) :
    ∀ (fuel i : Nat) (db : Db),
      (∀ j, i ≤ j → j < i + fuel → a ∉ batchAddrs pending bs j) →
      rowsAt (runBatches pauseAt outcome pending bs fuel i db) a = rowsAt db a := by
  intro fuel
  induction fuel with
  | zero => intro i db _; rfl
  | succ n ih =>
    intro i db hj
    simp only [runBatches]
    by_cases hp : pauseAt i = true
    · rw [if_pos hp]
      rfl
    · rw [if_neg hp]
      rw [ih (i + 1) _ (fun j h1 h2 => hj j (by omega) (by omega))]
      rw [rowsAt_applyOutcome, if_neg (hj i (le_refl i) (by omega))]

theorem rowsAt_runBatches_hit (pauseAt : Nat → Bool) (outcome : Nat → BatchOutcome)
    (pending : List RecipientRow) (bs : Nat) (a : String) (j0 : Nat) :
    ∀ (fuel i : Nat) (db : Db),
      i ≤ j0 → j0 < i + fuel →
      (∀ t, i ≤ t → t ≤ j0 → pauseAt t = false) →
      a ∈ batchAddrs pending bs j0 →
      (∀ j, i ≤ j → j < i + fuel → j ≠ j0 → a ∉ batchAddrs pending bs j) →
      rowsAt (runBatches pauseAt outcome pending bs fuel i db) a =
        (rowsAt db a).map (fun r =>
          { r with status := outcomeStatus (outcome j0), txHash := outcomeHash (outcome j0) }) := by
  intro fuel
  induction fuel with
  | zero => intro i db h1 h2 _ _ _; omega
  | succ n ih =>
    intro i db hij hlt hpf hmem hnot
    simp only [runBatches]
    rw [if_neg (by rw [hpf i (le_refl i) hij]; exact Bool.false_ne_true)]
    by_cases hi : i = j0
    · subst hi
      rw [rowsAt_runBatches_not_mem pauseAt outcome pending bs a n (i + 1) _
        (fun j h1 h2 => hnot j (by omega) (by omega) (by omega))]
      rw [rowsAt_applyOutcome, if_pos hmem]
    · rw [ih (i + 1) _ (by omega) (by omega) (fun t ht1 ht2 => hpf t (by omega) ht2) hmem
        (fun j h1 h2 h3 => hnot j (by omega) (by omega) h3)]
      rw [rowsAt_applyOutcome, if_neg (hnot i (le_refl i) (by omega) hi)]

theorem batchAddrs_eq_slice (pending : List RecipientRow) (bs j : Nat) :
    batchAddrs pending bs j = sliceBatch (pending.map (fun r => r.address)) bs j := by
  simp [batchAddrs, sliceBatch, List.map_take, List.map_drop]

theorem drop_eq_slice_append {α : Type} (l : List α) (bs j : Nat) :
    l.drop (j * bs) = sliceBatch l bs j ++ l.drop (j * bs + bs) := by
  unfold sliceBatch
  conv_lhs => rw [← List.take_append_drop bs (l.drop (j * bs))]
  rw [List.drop_drop]

theorem sliceBatch_subset_drop {α : Type} (l : List α) (bs j : Nat) :
    sliceBatch l bs j ⊆ l.drop (j * bs) := by
  unfold sliceBatch
  exact List.take_subset _ _

theorem drop_subset_drop {α : Type} (l : List α) {m k : Nat} (h : k ≤ m) :
    l.drop m ⊆ l.drop k := by
  intro x hx
  have h2 : l.drop m = (l.drop k).drop (m - k) := by
    rw [List.drop_drop]
    congr 1
    omega
  rw [h2] at hx
  exact List.drop_subset _ _ hx

theorem slice_disjoint {α : Type} (l : List α) (hND : l.Nodup) (bs : Nat) {j k : Nat}
    (hjk : j < k) {a : α} (ha : a ∈ sliceBatch l bs j) :
    a ∉ sliceBatch l bs k := by
  intro hak
  have hND2 : (l.drop (j * bs)).Nodup := hND.sublist (List.drop_sublist _ _)
  rw [drop_eq_slice_append l bs j] at hND2
  have hdisj := (List.nodup_append.mp hND2).2.2
  have hsub : sliceBatch l bs k ⊆ l.drop (j * bs + bs) := by
    intro x hx
    apply drop_subset_drop l ?_ (sliceBatch_subset_drop l bs k hx)
    have : (j + 1) * bs ≤ k * bs := Nat.mul_le_mul_right bs hjk
    rw [Nat.succ_mul] at this
    exact this
  exact hdisj ha (hsub hak)

theorem mem_pendingOf {db : Db} {r : RecipientRow} (h : r ∈ pendingOf db) :
    r ∈ db.recipients ∧ r.status = .PENDING := by
  have h2 := List.mem_filter.mp h
  simpa using h2

theorem pendingOf_addr_nodup {db : Db}
    (hND : (db.recipients.map (fun r => r.address)).Nodup) :
    ((pendingOf db).map (fun r => r.address)).Nodup :=
  ((List.filter_sublist db.recipients).map (fun r => r.address)).nodup hND

theorem addr_unique_batch {db : Db}
    (hND : (db.recipients.map (fun r => r.address)).Nodup)
    {bs j0 : Nat} {r : RecipientRow} (hr : r ∈ sliceBatch (pendingOf db) bs j0) :
    r.address ∈ batchAddrs (pendingOf db) bs j0 ∧
    ∀ j, j ≠ j0 → r.address ∉ batchAddrs (pendingOf db) bs j := by
  have hpND : ((pendingOf db).map (fun r => r.address)).Nodup := pendingOf_addr_nodup hND
  have hmem : r.address ∈ sliceBatch ((pendingOf db).map (fun x => x.address)) bs j0 := by
    rw [← batchAddrs_eq_slice]
    exact List.mem_map_of_mem _ hr
  refine ⟨List.mem_map_of_mem _ hr, ?_⟩
  intro j hj
  rw [batchAddrs_eq_slice]
  rcases Nat.lt_or_ge j j0 with h | h
  · intro hcon
    exact slice_disjoint _ hpND bs h hcon hmem
  · exact slice_disjoint _ hpND bs (by omega) hmem

theorem run_rowsAt_final (db : Db) (bs : Nat) (pauseAt : Nat → Bool)
    (outcome : Nat → BatchOutcome)
    (hND : (db.recipients.map (fun r => r.address)).Nodup)
    (hst : db.campaignStatus = .READY ∨ db.campaignStatus = .PAUSED)
    {j0 : Nat} (hj0 : j0 < numBatches (pendingOf db).length bs)
    (hpf : ∀ t, t ≤ j0 → pauseAt t = false)
    {r : RecipientRow} (hr : r ∈ sliceBatch (pendingOf db) bs j0) :
    rowsAt (executeCampaignRun false db bs pauseAt outcome).db r.address =
      (rowsAt db r.address).map (fun x =>
        { x with status := outcomeStatus (outcome j0), txHash := outcomeHash (outcome j0) }) := by
  have hne : pendingOf db ≠ [] := by
    intro h0
    rw [h0] at hr
    simp [sliceBatch] at hr
  rw [executeCampaignRun_main db bs pauseAt outcome hst hne]
  dsimp only
  rw [rowsAt_finishRun]
  obtain ⟨hmem, hnot⟩ := addr_unique_batch hND hr
  rw [rowsAt_runBatches_hit pauseAt outcome (pendingOf db) bs r.address j0 _ 0 _
    (Nat.zero_le _) (by omega) (fun t _ ht2 => hpf t ht2) hmem
    (fun j _ _ hne2 => hnot j hne2)]
  rfl

theorem run_row_final (db : Db) (bs : Nat) (pauseAt : Nat → Bool)
    (outcome : Nat → BatchOutcome)
    (hND : (db.recipients.map (fun r => r.address)).Nodup)
    (hst : db.campaignStatus = .READY ∨ db.campaignStatus = .PAUSED)
    {j0 : Nat} (hj0 : j0 < numBatches (pendingOf db).length bs)
    (hpf : ∀ t, t ≤ j0 → pauseAt t = false)
    {r : RecipientRow} (hr : r ∈ sliceBatch (pendingOf db) bs j0) :
    ∀ row ∈ (executeCampaignRun false db bs pauseAt outcome).db.recipients,
      row.address = r.address →
        row.status = outcomeStatus (outcome j0) ∧ row.txHash = outcomeHash (outcome j0) := by
  intro row hrow haddr
  have hmem : row ∈ rowsAt (executeCampaignRun false db bs pauseAt outcome).db r.address :=
    mem_rowsAt.mpr ⟨hrow, haddr⟩
  rw [run_rowsAt_final db bs pauseAt outcome hND hst hj0 hpf hr] at hmem
  rcases List.mem_map.mp hmem with ⟨x, _, rfl⟩
  exact ⟨rfl, rfl⟩

theorem numBatches_zero (bs : Nat) : numBatches 0 bs = 0 := by
  unfold numBatches
  rcases Nat.eq_zero_or_pos bs with h | h
  · subst h
    rfl
  · exact Nat.div_eq_of_lt (by omega)

/-- C3.  When batch k of a run fails permanently (its submission threw after
retries were exhausted), every recipient of batch k is marked FAILED, every
recipient of any other batch j receives exactly the status determined by its
own batch outcome (so the failure of batch k does not affect it), and the
run finishes without an error instead of aborting the campaign. -/
theorem batch_failure_isolation (db : Db) (bs : Nat) (outcome : Nat → BatchOutcome)
    (hND : (db.recipients.map (fun r => r.address)).Nodup)
    (hst : db.campaignStatus = .READY ∨ db.campaignStatus = .PAUSED)
    (k : Nat) (msg : String)
    (hk : k < numBatches (pendingOf db).length bs)
    (hko : outcome k = .threw msg) :
    (executeCampaignRun false db bs (fun _ => false) outcome).error = none ∧
    (∀ r ∈ sliceBatch (pendingOf db) bs k,
      ∀ row ∈ (executeCampaignRun false db bs (fun _ => false) outcome).db.recipients,
        row.address = r.address → row.status = .FAILED) ∧
    (∀ j, j < numBatches (pendingOf db).length bs → j ≠ k →
      ∀ r ∈ sliceBatch (pendingOf db) bs j,
        ∀ row ∈ (executeCampaignRun false db bs (fun _ => false) outcome).db.recipients,
          row.address = r.address →
            row.status = outcomeStatus (outcome j) ∧ row.txHash = outcomeHash (outcome j)) := by
  have hne : pendingOf db ≠ [] := by
    intro h0
    rw [h0] at hk
    simp only [List.length_nil, numBatches_zero] at hk
    omega
  refine ⟨?_, ?_, ?_⟩
  · rw [executeCampaignRun_main db bs _ outcome hst hne]
  · intro r hr row hrow haddr
    have h := run_row_final db bs (fun _ => false) outcome hND hst hk
      (fun t _ => rfl) hr row hrow haddr
    rw [hko] at h
    exact h.1
  · intro j hj hjk r hr row hrow haddr
    exact run_row_final db bs (fun _ => false) outcome hND hst hj
      (fun t _ => rfl) hr row hrow haddr

/-- Concrete campaign used by the witness of C3: three PENDING recipients
with distinct addresses, batch size 1. -/
def dbC3 : Db :=
  ⟨.READY,
    [⟨"a", "1", .PENDING, none⟩, ⟨"b", "1", .PENDING, none⟩, ⟨"c", "1", .PENDING, none⟩],
    []⟩

/-- Outcome oracle used by the witness of C3: batch 1 throws, the others
confirm. -/
def outcomeC3 : Nat → BatchOutcome :=
  fun i => if i = 1 then .threw "boom" else .confirmed "sig"

/-- Witness for C3: batch 1 of 3 throws while batches 0 and 2 confirm. -/
theorem batch_failure_isolation_witness :
    (executeCampaignRun false dbC3 1 (fun _ => false) outcomeC3).error = none ∧
    (∀ r ∈ sliceBatch (pendingOf dbC3) 1 1,
      ∀ row ∈ (executeCampaignRun false dbC3 1 (fun _ => false) outcomeC3).db.recipients,
        row.address = r.address → row.status = .FAILED) ∧
    (∀ j, j < numBatches (pendingOf dbC3).length 1 → j ≠ 1 →
      ∀ r ∈ sliceBatch (pendingOf dbC3) 1 j,
        ∀ row ∈ (executeCampaignRun false dbC3 1 (fun _ => false) outcomeC3).db.recipients,
          row.address = r.address →
            row.status = outcomeStatus (outcomeC3 j) ∧ row.txHash = outcomeHash (outcomeC3 j)) :=
  batch_failure_isolation dbC3 1 outcomeC3 (by decide) (Or.inl rfl) 1 "boom" (by decide) (by decide)

theorem sliceBatch_subset {α : Type} (l : List α) (bs j : Nat) : sliceBatch l bs j ⊆ l :=
  fun _ hx => List.drop_subset _ _ (sliceBatch_subset_drop l bs j hx)

theorem mul_lt_of_lt_numBatches {len bs j : Nat} (hbs : 0 < bs)
    (hj : j < numBatches len bs) : j * bs < len := by
  unfold numBatches at hj
  have h1 : j + 1 ≤ (len + bs - 1) / bs := hj
  have h2 : (j + 1) * bs ≤ len + bs - 1 := (Nat.le_div_iff_mul_le hbs).mp h1
  rw [Nat.succ_mul] at h2
  generalize j * bs = t at h2 ⊢
  omega

theorem sliceBatch_ne_nil {α : Type} {l : List α} {bs j : Nat} (hbs : 0 < bs)
    (h : j * bs < l.length) : sliceBatch l bs j ≠ [] := by
  intro hnil
  have hlen := congrArg List.length hnil
  simp only [sliceBatch, List.length_take, List.length_drop, List.length_nil] at hlen
  generalize j * bs = t at hlen h
  omega

theorem countStatus_ne_zero_of_mem {db : Db} {row : RecipientRow} {s : RecipientStatus}
    (h : row ∈ db.recipients) (hs : row.status = s) : countStatus db s ≠ 0 := by
  unfold countStatus
  have hmem : row ∈ db.recipients.filter (fun r => decide (r.status = s)) :=
    List.mem_filter.mpr ⟨h, by simp [hs]⟩
  intro h0
  rw [List.length_eq_zero] at h0
  rw [h0] at hmem
  exact absurd hmem (List.not_mem_nil _)

theorem runBatches_status_paused (pauseAt : Nat → Bool) (outcome : Nat → BatchOutcome)
    (pending : List RecipientRow) (bs : Nat) (jp : Nat) (hpt : pauseAt jp = true) :
    ∀ (fuel i : Nat) (db : Db), i ≤ jp → jp < i + fuel →
      (∀ t, i ≤ t → t < jp → pauseAt t = false) →
      (runBatches pauseAt outcome pending bs fuel i db).campaignStatus = .PAUSED := by
  intro fuel
  induction fuel with
  | zero => intro i db h1 h2 _; omega
  | succ n ih =>
    intro i db hij hlt hpf
    simp only [runBatches]
    by_cases hi : i = jp
    · subst hi
      rw [if_pos hpt]
      rfl
    · rw [if_neg (by rw [hpf i (le_refl i) (by omega)]; exact Bool.false_ne_true)]
      exact ih (i + 1) _ (by omega) (by omega) (fun t h1 h2 => hpf t (by omega) h2)

theorem rowsAt_runBatches_until_pause (pauseAt : Nat → Bool) (outcome : Nat → BatchOutcome)
    (pending : List RecipientRow) (bs : Nat) (a : String) (jp : Nat)
    (hpt : pauseAt jp = true) :
    ∀ (fuel i : Nat) (db : Db), i ≤ jp →
      (∀ t, i ≤ t → t < jp → pauseAt t = false) →
      (∀ j, i ≤ j → j < jp → a ∉ batchAddrs pending bs j) →
      rowsAt (runBatches pauseAt outcome pending bs fuel i db) a = rowsAt db a := by
  intro fuel
  induction fuel with
  | zero => intro i db _ _ _; rfl
  | succ n ih =>
    intro i db hij hpf hj
    simp only [runBatches]
    by_cases hi : i = jp
    · subst hi
      rw [if_pos hpt]
      rfl
    · rw [if_neg (by rw [hpf i (le_refl i) (by omega)]; exact Bool.false_ne_true)]
      rw [ih (i + 1) _ (by omega) (fun t h1 h2 => hpf t (by omega) h2)
        (fun j h1 h2 => hj j (by omega) h2)]
      rw [rowsAt_applyOutcome, if_neg (hj i (le_refl i) (by omega))]

theorem addr_not_in_pending {db : Db}
    (hND : (db.recipients.map (fun r => r.address)).Nodup)
    {row : RecipientRow} (hrow : row ∈ db.recipients) (hnp : row.status ≠ .PENDING)
    (bs j : Nat) :
    row.address ∉ batchAddrs (pendingOf db) bs j := by
  intro hmem
  rcases List.mem_map.mp hmem with ⟨p, hp, hpa⟩
  have hp2 := mem_pendingOf (sliceBatch_subset _ bs j hp)
  have hpr : p = row := List.inj_on_of_nodup_map hND hp2.1 hrow hpa
  rw [hpr] at hp2
  exact hnp hp2.2

theorem run_nonpending_rowsAt (db : Db) (bs : Nat) (pauseAt : Nat → Bool)
    (outcome : Nat → BatchOutcome)
    (hND : (db.recipients.map (fun r => r.address)).Nodup)
    {row : RecipientRow} (hrow : row ∈ db.recipients) (hnp : row.status ≠ .PENDING) :
    rowsAt (executeCampaignRun false db bs pauseAt outcome).db row.address =
      rowsAt db row.address := by
  by_cases hl : db.campaignStatus ≠ .READY ∧ db.campaignStatus ≠ .PAUSED
  · unfold executeCampaignRun
    rw [if_neg (by simp), if_pos hl]
    rfl
  · have hst : db.campaignStatus = .READY ∨ db.campaignStatus = .PAUSED := by tauto
    by_cases hemp : pendingOf db = []
    · unfold executeCampaignRun
      rw [if_neg (by simp), if_neg hl, if_pos hemp]
      rfl
    · rw [executeCampaignRun_main db bs pauseAt outcome hst hemp]
      dsimp only
      rw [rowsAt_finishRun]
      rw [rowsAt_runBatches_not_mem pauseAt outcome (pendingOf db) bs row.address _ 0 _
        (fun j _ _ => addr_not_in_pending hND hrow hnp bs j)]
      rfl

/-- C6.  The pause flag is consulted only at batch boundaries: when the flag
first reads true at boundary jp, every batch before jp has completed with its
own outcome (an in-flight batch is never interrupted), every recipient of
batch jp and of any later batch is left exactly as it was (those batches are
never started), and the campaign status ends as PAUSED.  Moreover a run never
touches a recipient whose status is not PENDING, so a subsequent Resume plus
Run never reprocesses recipients already marked COMPLETED. -/
theorem pause_observed_at_batch_boundary (db : Db) (bs : Nat) (pauseAt : Nat → Bool)
    (outcome : Nat → BatchOutcome)
    (hbs : 0 < bs)
    (hND : (db.recipients.map (fun r => r.address)).Nodup)
    (hst : db.campaignStatus = .READY ∨ db.campaignStatus = .PAUSED)
    (jp : Nat)
    (hjp : jp < numBatches (pendingOf db).length bs)
    (hpf : ∀ t, t < jp → pauseAt t = false)
    (hpt : pauseAt jp = true) :
    (executeCampaignRun false db bs pauseAt outcome).db.campaignStatus = .PAUSED ∧
    (∀ j, j < jp → ∀ r ∈ sliceBatch (pendingOf db) bs j,
      ∀ row ∈ (executeCampaignRun false db bs pauseAt outcome).db.recipients,
        row.address = r.address →
          row.status = outcomeStatus (outcome j) ∧ row.txHash = outcomeHash (outcome j)) ∧
    (∀ j, jp ≤ j → ∀ r ∈ sliceBatch (pendingOf db) bs j,
      ∀ row ∈ (executeCampaignRun false db bs pauseAt outcome).db.recipients,
        row.address = r.address → row = r) ∧
    (∀ row ∈ db.recipients, row.status ≠ .PENDING →
      ∀ row2 ∈ (executeCampaignRun false db bs pauseAt outcome).db.recipients,
        row2.address = row.address → row2 = row) := by
  have hne : pendingOf db ≠ [] := by
    intro h0
    rw [h0] at hjp
    simp only [List.length_nil, numBatches_zero] at hjp
    omega
  have hmain := executeCampaignRun_main db bs pauseAt outcome hst hne
  have hpf2 : ∀ t, 0 ≤ t → t < jp → pauseAt t = false := fun t _ h2 => hpf t h2
  refine ⟨?_, ?_, ?_, ?_⟩
  · obtain ⟨r0, hr0⟩ := List.exists_mem_of_ne_nil _
      (sliceBatch_ne_nil hbs (mul_lt_of_lt_numBatches hbs hjp) :
        sliceBatch (pendingOf db) bs jp ≠ [])
    obtain ⟨hmem0, hnot0⟩ := addr_unique_batch hND hr0
    have hr0p := mem_pendingOf (sliceBatch_subset _ bs jp hr0)
    have hrows0 :
        rowsAt (runBatches pauseAt outcome (pendingOf db) bs
          (numBatches (pendingOf db).length bs) 0 (setCampaignStatus db .SENDING))
          r0.address = rowsAt db r0.address := by
      rw [rowsAt_runBatches_until_pause pauseAt outcome (pendingOf db) bs r0.address jp hpt
        (numBatches (pendingOf db).length bs) 0 (setCampaignStatus db .SENDING)
        (Nat.zero_le jp) hpf2 (fun j _ h2 => hnot0 j (by omega))]
      rfl
    have hr0in : r0 ∈ (runBatches pauseAt outcome (pendingOf db) bs
        (numBatches (pendingOf db).length bs) 0 (setCampaignStatus db .SENDING)).recipients := by
      have hx : r0 ∈ rowsAt (runBatches pauseAt outcome (pendingOf db) bs
          (numBatches (pendingOf db).length bs) 0 (setCampaignStatus db .SENDING)) r0.address := by
        rw [hrows0]
        exact mem_rowsAt.mpr ⟨hr0p.1, rfl⟩
      exact (mem_rowsAt.mp hx).1
    have hcount : countStatus (runBatches pauseAt outcome (pendingOf db) bs
        (numBatches (pendingOf db).length bs) 0 (setCampaignStatus db .SENDING)) .PENDING ≠ 0 :=
      countStatus_ne_zero_of_mem hr0in hr0p.2
    rw [hmain]
    dsimp only
    unfold finishRun
    rw [if_neg hcount]
    exact runBatches_status_paused pauseAt outcome (pendingOf db) bs jp hpt
      (numBatches (pendingOf db).length bs) 0 (setCampaignStatus db .SENDING)
      (Nat.zero_le jp) (by omega) hpf2
  · intro j hj r hr row hrow haddr
    exact run_row_final db bs pauseAt outcome hND hst (by omega) (fun t ht => hpf t (by omega))
      hr row hrow haddr
  · intro j hj r hr row hrow haddr
    obtain ⟨hmemj, hnotj⟩ := addr_unique_batch hND hr
    have hrp := mem_pendingOf (sliceBatch_subset _ bs j hr)
    have heq : rowsAt (executeCampaignRun false db bs pauseAt outcome).db r.address =
        rowsAt db r.address := by
      rw [hmain]
      dsimp only
      rw [rowsAt_finishRun]
      rw [rowsAt_runBatches_until_pause pauseAt outcome (pendingOf db) bs r.address jp hpt
        (numBatches (pendingOf db).length bs) 0 (setCampaignStatus db .SENDING)
        (Nat.zero_le jp) hpf2 (fun t _ h2 => hnotj t (by omega))]
      rfl
    have hrowmem : row ∈ rowsAt db r.address := by
      rw [← heq]
      exact mem_rowsAt.mpr ⟨hrow, haddr⟩
    obtain ⟨hrowdb, hrowaddr⟩ := mem_rowsAt.mp hrowmem
    exact List.inj_on_of_nodup_map hND hrowdb hrp.1 hrowaddr
  · intro row hrow hnp row2 hrow2 haddr2
    have heq := run_nonpending_rowsAt db bs pauseAt outcome hND hrow hnp
    have hx : row2 ∈ rowsAt db row.address := by
      rw [← heq]
      exact mem_rowsAt.mpr ⟨hrow2, haddr2⟩
    obtain ⟨h1, h2⟩ := mem_rowsAt.mp hx
    exact List.inj_on_of_nodup_map hND h1 hrow h2

/-- Concrete campaign used by the witness of C6: three PENDING recipients and
one already-COMPLETED recipient, batch size 1. -/
def dbC6 : Db :=
  ⟨.READY,
    [⟨"a", "1", .PENDING, none⟩, ⟨"b", "1", .PENDING, none⟩, ⟨"c", "1", .PENDING, none⟩,
      ⟨"d", "1", .COMPLETED, some "old"⟩],
    []⟩

/-- Pause oracle used by the witness of C6: the flag reads true exactly at
batch boundary 1. -/
def pauseC6 : Nat → Bool :=
  fun i => decide (i = 1)

/-- Witness for C6: pause requested at boundary 1 of a 3-batch run. -/
theorem pause_observed_at_batch_boundary_witness :
    (executeCampaignRun false dbC6 1 pauseC6 (fun _ => .confirmed "sig")).db.campaignStatus =
      .PAUSED ∧
    (∀ j, j < 1 → ∀ r ∈ sliceBatch (pendingOf dbC6) 1 j,
      ∀ row ∈ (executeCampaignRun false dbC6 1 pauseC6
          (fun _ => .confirmed "sig")).db.recipients,
        row.address = r.address →
          row.status = outcomeStatus ((fun _ => BatchOutcome.confirmed "sig") j) ∧
          row.txHash = outcomeHash ((fun _ => BatchOutcome.confirmed "sig") j)) ∧
    (∀ j, 1 ≤ j → ∀ r ∈ sliceBatch (pendingOf dbC6) 1 j,
      ∀ row ∈ (executeCampaignRun false dbC6 1 pauseC6
          (fun _ => .confirmed "sig")).db.recipients,
        row.address = r.address → row = r) ∧
    (∀ row ∈ dbC6.recipients, row.status ≠ .PENDING →
      ∀ row2 ∈ (executeCampaignRun false dbC6 1 pauseC6
          (fun _ => .confirmed "sig")).db.recipients,
        row2.address = row.address → row2 = row) :=
  pause_observed_at_batch_boundary dbC6 1 pauseC6 (fun _ => .confirmed "sig")
    (by decide) (by decide) (Or.inl rfl) 1 (by decide)
    (fun t ht => by
      have ht0 : t = 0 := by omega
      subst ht0
      rfl)
    (by decide)

theorem updateRecipients_map_address (rows : List RecipientRow) (addrs : List String)
    (st : RecipientStatus) (h : Option String) :
    (updateRecipients rows addrs st h).map (fun r => r.address) =
      rows.map (fun r => r.address) := by
  unfold updateRecipients
  rw [List.map_map]
  apply List.map_congr_left
  intro r _
  by_cases hr : r.address ∈ addrs <;> simp [hr]

theorem status_of_mem_updateRecipients {rows : List RecipientRow} {addrs : List String}
    {st : RecipientStatus} {h : Option String} {row : RecipientRow}
    (hrow : row ∈ updateRecipients rows addrs st h) :
    row.status = st ∨ ∃ r0, r0 ∈ rows ∧ row = r0 := by
  rcases List.mem_map.mp hrow with ⟨r0, hr0, rfl⟩
  by_cases hc : r0.address ∈ addrs
  · left
    simp [hc]
  · right
    exact ⟨r0, hr0, by simp [hc]⟩

theorem outcomeStatus_cases (o : BatchOutcome) :
    outcomeStatus o = .COMPLETED ∨ outcomeStatus o = .FAILED := by
  cases o <;> simp [outcomeStatus]

theorem runBatches_status_closed (pauseAt : Nat → Bool) (outcome : Nat → BatchOutcome)
    (pending : List RecipientRow) (bs : Nat) (P : RecipientStatus → Prop)
    (hC : P .COMPLETED) (hF : P .FAILED) :
    ∀ (fuel i : Nat) (db : Db), (∀ row ∈ db.recipients, P row.status) →
      ∀ row ∈ (runBatches pauseAt outcome pending bs fuel i db).recipients, P row.status := by
  intro fuel
  induction fuel with
  | zero => intro i db h row hrow; exact h row hrow
  | succ n ih =>
    intro i db h row hrow
    simp only [runBatches] at hrow
    by_cases hp : pauseAt i = true
    · rw [if_pos hp] at hrow
      exact h row hrow
    · rw [if_neg hp] at hrow
      refine ih (i + 1) _ ?_ row hrow
      intro row2 hrow2
      have hrow2b : row2 ∈ updateRecipients db.recipients (batchAddrs pending bs i)
          (outcomeStatus (outcome i)) (outcomeHash (outcome i)) := hrow2
      rcases status_of_mem_updateRecipients hrow2b with hs | ⟨r0, hr0, heq⟩
      · rw [hs]
        rcases outcomeStatus_cases (outcome i) with h1 | h1 <;> rw [h1]
        · exact hC
        · exact hF
      · rw [heq]
        exact h r0 hr0

theorem runBatches_map_address (pauseAt : Nat → Bool) (outcome : Nat → BatchOutcome)
    (pending : List RecipientRow) (bs : Nat) :
    ∀ (fuel i : Nat) (db : Db),
      (runBatches pauseAt outcome pending bs fuel i db).recipients.map (fun r => r.address) =
        db.recipients.map (fun r => r.address) := by
  intro fuel
  induction fuel with
  | zero => intro i db; rfl
  | succ n ih =>
    intro i db
    simp only [runBatches]
    by_cases hp : pauseAt i = true
    · rw [if_pos hp]
      rfl
    · rw [if_neg hp]
      rw [ih (i + 1)]
      exact updateRecipients_map_address db.recipients _ _ _

theorem executeCampaignRun_map_address (lockHeld : Bool) (db : Db) (bs : Nat)
    (pauseAt : Nat → Bool) (outcome : Nat → BatchOutcome) :
    (executeCampaignRun lockHeld db bs pauseAt outcome).db.recipients.map (fun r => r.address) =
      db.recipients.map (fun r => r.address) := by
  unfold executeCampaignRun
  by_cases hl : lockHeld = true
  · rw [if_pos hl]
  · rw [if_neg hl]
    by_cases h2 : db.campaignStatus ≠ .READY ∧ db.campaignStatus ≠ .PAUSED
    · rw [if_pos h2]
      rfl
    · rw [if_neg h2]
      by_cases h3 : pendingOf db = []
      · rw [if_pos h3]
        rfl
      · rw [if_neg h3]
        dsimp only
        unfold finishRun
        split
        · exact runBatches_map_address pauseAt outcome (pendingOf db) bs _ 0 _
        · exact runBatches_map_address pauseAt outcome (pendingOf db) bs _ 0 _

theorem executeCampaignRun_status_closed (P : RecipientStatus → Prop)
    (hC : P .COMPLETED) (hF : P .FAILED) (lockHeld : Bool) (db : Db) (bs : Nat)
    (pauseAt : Nat → Bool) (outcome : Nat → BatchOutcome)
    (h : ∀ row ∈ db.recipients, P row.status) :
    ∀ row ∈ (executeCampaignRun lockHeld db bs pauseAt outcome).db.recipients, P row.status := by
  unfold executeCampaignRun
  by_cases hl : lockHeld = true
  · rw [if_pos hl]
    exact h
  · rw [if_neg hl]
    by_cases h2 : db.campaignStatus ≠ .READY ∧ db.campaignStatus ≠ .PAUSED
    · rw [if_pos h2]
      exact h
    · rw [if_neg h2]
      by_cases h3 : pendingOf db = []
      · rw [if_pos h3]
        exact h
      · rw [if_neg h3]
        dsimp only
        unfold finishRun
        split
        · exact runBatches_status_closed pauseAt outcome (pendingOf db) bs P hC hF _ 0 _ h
        · exact runBatches_status_closed pauseAt outcome (pendingOf db) bs P hC hF _ 0 _ h

theorem count_partition (rows : List RecipientRow)
    (h : ∀ row ∈ rows,
      row.status = .PENDING ∨ row.status = .COMPLETED ∨ row.status = .FAILED) :
    (rows.filter (fun r => decide (r.status = .COMPLETED))).length +
    (rows.filter (fun r => decide (r.status = .FAILED))).length +
    (rows.filter (fun r => decide (r.status = .PENDING))).length = rows.length := by
  induction rows with
  | nil => rfl
  | cons r rs ih =>
    have hr := h r (List.mem_cons_self r rs)
    have hrs := ih (fun row hrow => h row (List.mem_cons_of_mem r hrow))
    rcases hr with h1 | h1 | h1 <;> simp [List.filter_cons, h1] <;> omega

/-- C5.  However a run terminates (lock rejection, invalid state, completion,
failure or pause), every recipient of the campaign still has exactly one of
the statuses PENDING, COMPLETED or FAILED (given that it started with one of
them), the counts satisfy completed + failed + pending = totalRecipients, and
the run neither creates nor deletes recipients: the address column of the
recipients table is unchanged, row for row. -/
theorem run_recipient_partition (lockHeld : Bool) (db : Db) (bs : Nat)
    (pauseAt : Nat → Bool) (outcome : Nat → BatchOutcome)
    (h3 : ∀ row ∈ db.recipients,
      row.status = .PENDING ∨ row.status = .COMPLETED ∨ row.status = .FAILED) :
    (∀ row ∈ (executeCampaignRun lockHeld db bs pauseAt outcome).db.recipients,
      row.status = .PENDING ∨ row.status = .COMPLETED ∨ row.status = .FAILED) ∧
    countStatus (executeCampaignRun lockHeld db bs pauseAt outcome).db .COMPLETED +
      countStatus (executeCampaignRun lockHeld db bs pauseAt outcome).db .FAILED +
      countStatus (executeCampaignRun lockHeld db bs pauseAt outcome).db .PENDING =
      db.recipients.length ∧
    (executeCampaignRun lockHeld db bs pauseAt outcome).db.recipients.map (fun r => r.address) =
      db.recipients.map (fun r => r.address) := by
  have hclosed := executeCampaignRun_status_closed
    (fun s => s = .PENDING ∨ s = .COMPLETED ∨ s = .FAILED)
    (Or.inr (Or.inl rfl)) (Or.inr (Or.inr rfl)) lockHeld db bs pauseAt outcome h3
  have hmap := executeCampaignRun_map_address lockHeld db bs pauseAt outcome
  refine ⟨hclosed, ?_, hmap⟩
  have hlen : (executeCampaignRun lockHeld db bs pauseAt outcome).db.recipients.length =
      db.recipients.length := by
    have h4 := congrArg List.length hmap
    simpa using h4
  rw [← hlen]
  exact count_partition _ hclosed

/-- Concrete campaign used by the witness of C5: two PENDING recipients and
one FAILED recipient, batch size 2, with the second batch outcome a
confirmation failure. -/
def dbC5 : Db :=
  ⟨.READY,
    [⟨"a", "1", .PENDING, none⟩, ⟨"b", "1", .PENDING, none⟩, ⟨"c", "1", .FAILED, some "err"⟩],
    []⟩

/-- Witness for C5 at a concrete campaign. -/
theorem run_recipient_partition_witness :
    (∀ row ∈ (executeCampaignRun false dbC5 2 (fun _ => false)
        (fun _ => .confirmFailed "sig" "Transaction failed")).db.recipients,
      row.status = .PENDING ∨ row.status = .COMPLETED ∨ row.status = .FAILED) ∧
    countStatus (executeCampaignRun false dbC5 2 (fun _ => false)
        (fun _ => .confirmFailed "sig" "Transaction failed")).db .COMPLETED +
      countStatus (executeCampaignRun false dbC5 2 (fun _ => false)
        (fun _ => .confirmFailed "sig" "Transaction failed")).db .FAILED +
      countStatus (executeCampaignRun false dbC5 2 (fun _ => false)
        (fun _ => .confirmFailed "sig" "Transaction failed")).db .PENDING =
      dbC5.recipients.length ∧
    (executeCampaignRun false dbC5 2 (fun _ => false)
        (fun _ => .confirmFailed "sig" "Transaction failed")).db.recipients.map
      (fun r => r.address) = dbC5.recipients.map (fun r => r.address) :=
  run_recipient_partition false dbC5 2 (fun _ => false)
    (fun _ => .confirmFailed "sig" "Transaction failed") (by decide)

/-- Concrete campaign used by the witness of C2: two PENDING recipients,
batch size 1; batch 0 confirms and batch 1 throws, so the run ends with one
COMPLETED and one FAILED recipient and no PENDING recipient. -/
def dbC2 : Db :=
  ⟨.READY, [⟨"a", "1", .PENDING, none⟩, ⟨"b", "1", .PENDING, none⟩], []⟩

/-- Outcome oracle used by the witness of C2. -/
def outcomeC2 : Nat → BatchOutcome :=
  fun i => if i = 0 then .confirmed "sig" else .threw "boom"

/-- Witness for C2: the run of dbC2 ends with a FAILED recipient, zero PENDING
recipients, and campaign status COMPLETED. -/
theorem run_completed_despite_failures_witness :
    countStatus (executeCampaignRun false dbC2 1 (fun _ => false) outcomeC2).db .FAILED = 1 ∧
    (executeCampaignRun false dbC2 1 (fun _ => false) outcomeC2).db.campaignStatus =
      .COMPLETED :=
  ⟨by decide,
    run_completed_despite_failures dbC2 1 (fun _ => false) outcomeC2
      (Or.inl rfl) (fun _ => rfl) (by decide)⟩

/-- One entry of the details array of SolanaBatchTransferResult: address,
amount, and whether this transfer succeeded. -/
structure TransferDetail where
  address : String
  amount : String
  ok : Bool
  deriving DecidableEq, Repr

/-- The fields of SolanaBatchTransferResult the claims are about. -/
structure SolBatchResult where
  transactionHash : String
  recipientCount : Nat
  gasUsed : Nat
  status : String
  details : List TransferDetail
  deriving DecidableEq, Repr

/-- Per-recipient results pushed by executeBatchTransfer for a batch whose
transaction was sent: success for every recipient whose instruction was
prepared, failed for the others. -/
def solPrepDetails (prepOk : String → Bool) (batch : List (String × String)) :
    List TransferDetail :=
  batch.map (fun p => ⟨p.1, p.2, prepOk p.1⟩)

/-- Per-recipient results pushed by the catch block of batchTransfer when the
whole batch failed: every recipient of the batch is marked failed. -/
def solFailDetails (batch : List (String × String)) : List TransferDetail :=
  batch.map (fun p => ⟨p.1, p.2, false⟩)

/-- One iteration of the batch loop of SolanaService.batchTransfer for batch
number i: sendOk i is the signature and fee when sending the batch
transaction succeeded, none when it threw; executeBatchTransfer also throws
when not a single instruction of the batch could be prepared.  The result is
the details pushed for the batch, the hashes pushed (one on success, none on
failure) and the fee added to the gas total. -/
def solBatchStep (prepOk : String → Bool) (sendOk : Nat → Option (String × Nat))
    (pairs : List (String × String)) (bs i : Nat) :
    List TransferDetail × List String × Nat :=
  match sendOk i with
  | some sf =>
    if (sliceBatch pairs bs i).any (fun p => prepOk p.1) then
      (solPrepDetails prepOk (sliceBatch pairs bs i), [sf.1], sf.2)
    else
      (solFailDetails (sliceBatch pairs bs i), [], 0)
  | none => (solFailDetails (sliceBatch pairs bs i), [], 0)

/-- The concatenated details array accumulated over all batches by the loop
of SolanaService.batchTransfer. -/
def solAllDetails (prepOk : String → Bool) (sendOk : Nat → Option (String × Nat))
    (pairs : List (String × String)) (bs : Nat) : List TransferDetail :=
  (((List.range (numBatches pairs.length bs)).map
    (solBatchStep prepOk sendOk pairs bs)).map (fun s => s.1)).flatten

/-- The transactionHashes array accumulated over all batches. -/
def solAllSigs (prepOk : String → Bool) (sendOk : Nat → Option (String × Nat))
    (pairs : List (String × String)) (bs : Nat) : List String :=
  (((List.range (numBatches pairs.length bs)).map
    (solBatchStep prepOk sendOk pairs bs)).map (fun s => s.2.1)).flatten

/-- The successCount of SolanaService.batchTransfer: the number of success
entries among the accumulated details. -/
def solSuccessCount (prepOk : String → Bool) (sendOk : Nat → Option (String × Nat))
    (pairs : List (String × String)) (bs : Nat) : Nat :=
  ((solAllDetails prepOk sendOk pairs bs).filter (fun d => d.ok)).length

/-- SolanaService.batchTransfer: the recipient list is processed in chunks of
solanaBatchSize, the per-batch results are concatenated, recipientCount is
successCount, the transaction hash is the comma-join of the collected
signatures, and the status is success when every input recipient succeeded,
partial when at least one did, failed otherwise. -/
def solanaBatchTransfer (recipients amounts : List String) (isNativeSOL : Bool)
    (prepOk : String → Bool) (sendOk : Nat → Option (String × Nat)) : SolBatchResult :=
  let pairs := recipients.zip amounts
  let bs := solanaBatchSize isNativeSOL
  { transactionHash := String.intercalate "," (solAllSigs prepOk sendOk pairs bs)
    recipientCount := solSuccessCount prepOk sendOk pairs bs
    gasUsed := (((List.range (numBatches pairs.length bs)).map
      (solBatchStep prepOk sendOk pairs bs)).map (fun s => s.2.2)).sum
    status := if solSuccessCount prepOk sendOk pairs bs = recipients.length then "success"
      else if 0 < solSuccessCount prepOk sendOk pairs bs then "partial" else "failed"
    details := solAllDetails prepOk sendOk pairs bs }

/-- Signature contributed by batch i, when the batch was actually sent. -/
def solBatchSig (prepOk : String → Bool) (sendOk : Nat → Option (String × Nat))
    (pairs : List (String × String)) (bs i : Nat) : Option String :=
  match sendOk i with
  | some sf => if (sliceBatch pairs bs i).any (fun p => prepOk p.1) then some sf.1 else none
  | none => none

theorem length_le_numBatches_mul (len bs : Nat) (hbs : 0 < bs) :
    len ≤ numBatches len bs * bs := by
  unfold numBatches
  rcases Nat.eq_zero_or_pos len with h | h
  · subst h
    exact Nat.zero_le _
  · have h1 : (len + bs - 1) / bs = (len - 1) / bs + 1 := by
      rw [show len + bs - 1 = (len - 1) + bs from by omega]
      exact Nat.add_div_right _ hbs
    rw [h1, Nat.add_mul, one_mul]
    have h2 := Nat.div_add_mod (len - 1) bs
    have h3 := Nat.mod_lt (len - 1) hbs
    rw [Nat.mul_comm] at h2
    generalize (len - 1) / bs * bs = t at h2 ⊢
    omega

theorem sliceBatch_succ {α : Type} (l : List α) (bs i : Nat) :
    sliceBatch l bs (i + 1) = sliceBatch (l.drop bs) bs i := by
  unfold sliceBatch
  rw [List.drop_drop]
  congr 2
  ring

theorem flatten_slices {α : Type} (bs : Nat) :
    ∀ (n : Nat) (l : List α), l.length ≤ n * bs →
      ((List.range n).map (fun i => sliceBatch l bs i)).flatten = l := by
  intro n
  induction n with
  | zero =>
    intro l hl
    simp only [Nat.zero_mul, Nat.le_zero, List.length_eq_zero] at hl
    subst hl
    rfl
  | succ m ih =>
    intro l hl
    rw [List.range_succ_eq_map]
    simp only [List.map_cons, List.map_map, List.flatten_cons]
    have hcomp : (List.range m).map (fun i => sliceBatch l bs (Nat.succ i)) =
        (List.range m).map (fun i => sliceBatch (l.drop bs) bs i) :=
      List.map_congr_left (fun i _ => sliceBatch_succ l bs i)
    have hgoal2 : ((List.range m).map (fun i => sliceBatch (l.drop bs) bs i)).flatten =
        l.drop bs := by
      apply ih
      have hlen : (l.drop bs).length = l.length - bs := List.length_drop bs l
      rw [hlen, Nat.succ_mul] at *
      omega
    calc sliceBatch l bs 0 ++
          ((List.range m).map (fun i => sliceBatch l bs (Nat.succ i))).flatten
        = l.take bs ++ ((List.range m).map (fun i => sliceBatch (l.drop bs) bs i)).flatten := by
          rw [hcomp]
          congr 1
          simp [sliceBatch]
      _ = l.take bs ++ l.drop bs := by rw [hgoal2]
      _ = l := List.take_append_drop bs l

theorem flatten_map_toList {α β : Type} (f : α → List β) (g : α → Option β)
    (hfg : ∀ x, f x = (g x).toList) (l : List α) :
    (l.map f).flatten = l.filterMap g := by
  induction l with
  | nil => rfl
  | cons x xs ih =>
    simp only [List.map_cons, List.flatten_cons, List.filterMap_cons, hfg x, ih]
    cases g x <;> simp [Option.toList]

theorem solBatchStep_details_address (prepOk : String → Bool)
    (sendOk : Nat → Option (String × Nat)) (pairs : List (String × String)) (bs i : Nat) :
    (solBatchStep prepOk sendOk pairs bs i).1.map (fun d => d.address) =
      (sliceBatch pairs bs i).map Prod.fst := by
  unfold solBatchStep
  cases sendOk i with
  | none => simp [solFailDetails]
  | some sf =>
    by_cases hany : (sliceBatch pairs bs i).any (fun p => prepOk p.1) = true
    · simp only [if_pos hany]
      simp [solPrepDetails]
    · simp only [if_neg hany]
      simp [solFailDetails]

theorem solBatchStep_sigs (prepOk : String → Bool)
    (sendOk : Nat → Option (String × Nat)) (pairs : List (String × String)) (bs i : Nat) :
    (solBatchStep prepOk sendOk pairs bs i).2.1 =
      (solBatchSig prepOk sendOk pairs bs i).toList := by
  unfold solBatchStep solBatchSig
  cases sendOk i with
  | none => rfl
  | some sf =>
    by_cases hany : (sliceBatch pairs bs i).any (fun p => prepOk p.1) = true
    · simp only [if_pos hany]
      rfl
    · simp only [if_neg hany]
      rfl

theorem steps_details_flatten (prepOk : String → Bool)
    (sendOk : Nat → Option (String × Nat)) (pairs : List (String × String)) (bs : Nat)
    (idxs : List Nat) :
    (((idxs.map (solBatchStep prepOk sendOk pairs bs)).map (fun s => s.1)).flatten).map
        (fun d => d.address) =
      ((idxs.map (fun i => sliceBatch pairs bs i)).flatten).map Prod.fst := by
  induction idxs with
  | nil => rfl
  | cons i is ih =>
    simp only [List.map_cons, List.flatten_cons, List.map_append, ih]
    congr 1
    exact solBatchStep_details_address prepOk sendOk pairs bs i

theorem steps_sigs_flatten (prepOk : String → Bool)
    (sendOk : Nat → Option (String × Nat)) (pairs : List (String × String)) (bs : Nat)
    (idxs : List Nat) :
    ((idxs.map (solBatchStep prepOk sendOk pairs bs)).map (fun s => s.2.1)).flatten =
      idxs.filterMap (solBatchSig prepOk sendOk pairs bs) := by
  induction idxs with
  | nil => rfl
  | cons i is ih =>
    simp only [List.map_cons, List.flatten_cons, List.filterMap_cons, ih,
      solBatchStep_sigs]
    cases solBatchSig prepOk sendOk pairs bs i <;> simp [Option.toList]

theorem solAllDetails_map_address (prepOk : String → Bool)
    (sendOk : Nat → Option (String × Nat)) (pairs : List (String × String)) (bs : Nat)
    (hbs : 0 < bs) :
    (solAllDetails prepOk sendOk pairs bs).map (fun d => d.address) = pairs.map Prod.fst := by
  unfold solAllDetails
  rw [steps_details_flatten]
  rw [flatten_slices bs (numBatches pairs.length bs) pairs
    (length_le_numBatches_mul pairs.length bs hbs)]

theorem solanaBatchSize_pos (b : Bool) : 0 < solanaBatchSize b := by
  cases b <;> simp [solanaBatchSize]

/-- C10.  The result of a Solana batch transfer reports one detail entry per
input recipient (in input order); its recipientCount field equals the number
of recipients whose transfer succeeded, i.e. the number of success entries
among the details, not the input length; when some but not all recipients
succeeded the status is partial; and the transactionHash field is the
comma-joined concatenation of the signatures of exactly those
sub-transactions that were actually sent. -/
theorem solana_batch_transfer_result_fields (recipients amounts : List String)
    (isNativeSOL : Bool) (prepOk : String → Bool) (sendOk : Nat → Option (String × Nat))
    (hlen : recipients.length = amounts.length) :
    (solanaBatchTransfer recipients amounts isNativeSOL prepOk sendOk).details.map
        (fun d => d.address) = recipients ∧
    (solanaBatchTransfer recipients amounts isNativeSOL prepOk sendOk).recipientCount =
      ((solanaBatchTransfer recipients amounts isNativeSOL prepOk sendOk).details.filter
        (fun d => d.ok)).length ∧
    (0 < (solanaBatchTransfer recipients amounts isNativeSOL prepOk sendOk).recipientCount →
      (solanaBatchTransfer recipients amounts isNativeSOL prepOk sendOk).recipientCount <
        recipients.length →
      (solanaBatchTransfer recipients amounts isNativeSOL prepOk sendOk).status = "partial") ∧
    (solanaBatchTransfer recipients amounts isNativeSOL prepOk sendOk).transactionHash =
      String.intercalate ","
        ((List.range (numBatches (recipients.zip amounts).length
          (solanaBatchSize isNativeSOL))).filterMap
          (solBatchSig prepOk sendOk (recipients.zip amounts) (solanaBatchSize isNativeSOL))) := by
  refine ⟨?_, rfl, ?_, ?_⟩
  · simp only [solanaBatchTransfer]
    rw [solAllDetails_map_address prepOk sendOk _ _ (solanaBatchSize_pos isNativeSOL)]
    exact List.map_fst_zip recipients amounts (le_of_eq hlen)
  · intro h1 h2
    simp only [solanaBatchTransfer] at h1 h2 ⊢
    rw [if_neg (by omega), if_pos h1]
  · simp only [solanaBatchTransfer]
    unfold solAllSigs
    rw [steps_sigs_flatten]

/-- Preparation oracle used by the witness of C10: only address a prepares. -/
def prepC10 : String → Bool :=
  fun s => decide (s = "a")

/-- Send oracle used by the witness of C10: every batch transaction sends. -/
def sendC10 : Nat → Option (String × Nat) :=
  fun _ => some ("sig", 5000)

/-- Witness for C10: an SPL transfer to two recipients of which only the first
prepares; the result is partial with recipientCount 1. -/
theorem solana_batch_transfer_result_fields_witness :
    (solanaBatchTransfer ["a", "b"] ["1", "2"] false prepC10 sendC10).details.map
        (fun d => d.address) = ["a", "b"] ∧
    (solanaBatchTransfer ["a", "b"] ["1", "2"] false prepC10 sendC10).status = "partial" ∧
    (solanaBatchTransfer ["a", "b"] ["1", "2"] false prepC10 sendC10).transactionHash =
      String.intercalate ","
        ((List.range (numBatches ((["a", "b"]).zip ["1", "2"]).length
          (solanaBatchSize false))).filterMap
          (solBatchSig prepC10 sendC10 ((["a", "b"]).zip ["1", "2"]) (solanaBatchSize false))) :=
  ⟨(solana_batch_transfer_result_fields ["a", "b"] ["1", "2"] false prepC10 sendC10 rfl).1,
   (solana_batch_transfer_result_fields ["a", "b"] ["1", "2"] false prepC10 sendC10 rfl).2.2.1
     (by decide) (by decide),
   (solana_batch_transfer_result_fields ["a", "b"] ["1", "2"] false prepC10 sendC10 rfl).2.2.2⟩
